import Mathlib

/-!
Verification development for the `semhash` prototype (`src/main.py`).

The Python source is shallowly embedded: the subset of the Python AST that
the program consumes is an inductive type, the `ast.NodeVisitor` dispatch
machinery and the `SolverVisitor` subclass become explicitly state-passing
functions into `Except` (Python exceptions become `Except.error`), and the
z3 objects the program allocates (bit-vector constants, the `Z3PyValue`
datatype constructors, uninterpreted functions) become small inductive
value types.  The equivalence oracle and fingerprint builder described in
the specification have no code in `src/`; they are modelled from the
specification's words in the `SpecModel` namespace further below.
-/

namespace Semhash

/-- Literal values that can sit in an `ast.Constant` node. -/
inductive ConstVal where
  | intC (n : Int)
  | strC (s : String)
  | boolC (b : Bool)
  | noneC
deriving DecidableEq, Repr

/-- Binary operator kinds (`ast.Add`, `ast.Sub`, ...).  The program only
ever prints the operator's class name, so the exact enumeration is
irrelevant; operator nodes have no children and no visitor method, hence
visiting them is a no-op and they are modelled as plain data. -/
inductive BinOpKind where
  | addOp
  | subOp
  | multOp
deriving DecidableEq, Repr

/-- The subset of Python AST node shapes `src/main.py` consumes.
`functionDef` carries the parameter list as (name, optional annotation)
pairs — the intermediate `ast.arguments` / `ast.arg` wrapper nodes are
flattened, which only elides two childless levels of the tree walk. -/
inductive Ast where
  | module (body : List Ast)
  | functionDef (name : String) (args : List (String × Option Ast))
      (body : List Ast) (returns : Option Ast)
  | assign (targets : List Ast) (value : Ast)
  | ret (value : Option Ast)
  | binOp (left : Ast) (op : BinOpKind) (right : Ast)
  | name (id : String)
  | constant (val : ConstVal)
  | subscript (value : Ast) (slice : Ast)
  | attrNode (value : Ast) (attr : String)
  | tuple (elts : List Ast)

/-- `true` exactly on `ast.FunctionDef` nodes. -/
def isFunctionDef : Ast → Bool
  | .functionDef .. => true
  | _ => false

/-- `true` exactly on `ast.Name` nodes. -/
def isName : Ast → Bool
  | .name _ => true
  | _ => false

mutual

/-- Structural size of an AST node (strictly positive), used as the
termination measure for the tree walk and the visitor. -/
def astSize : Ast → Nat
  | .module body => 1 + astSizeL body
  | .functionDef _ args body returns =>
      1 + astSizeArgs args + astSizeL body + astSizeO returns
  | .assign targets value => 1 + astSizeL targets + astSize value
  | .ret value => 1 + astSizeO value
  | .binOp l _ r => 1 + astSize l + astSize r
  | .name _ => 1
  | .constant _ => 1
  | .subscript v s => 1 + astSize v + astSize s
  | .attrNode v _ => 1 + astSize v
  | .tuple elts => 1 + astSizeL elts

def astSizeL : List Ast → Nat
  | [] => 0
  | a :: l => astSize a + astSizeL l

def astSizeO : Option Ast → Nat
  | none => 0
  | some a => astSize a

def astSizeArgs : List (String × Option Ast) → Nat
  | [] => 0
  | a :: l => astSizeO a.2 + astSizeArgs l

end

/-- Child nodes in field order, as `ast.iter_child_nodes` yields them
(and as `generic_visit` visits them). -/
def walkChildren : Ast → List Ast
  | .module body => body
  | .functionDef _ args body returns =>
      (args.filterMap (·.2)) ++ body ++ returns.toList
  | .assign targets value => targets ++ [value]
  | .ret value => value.toList
  | .binOp l _ r => [l, r]
  | .name _ => []
  | .constant _ => []
  | .subscript v s => [v, s]
  | .attrNode v _ => [v]
  | .tuple elts => elts

theorem astSize_pos (a : Ast) : 0 < astSize a := by
  cases a <;> simp [astSize]

theorem astSizeL_append (l₁ l₂ : List Ast) :
    astSizeL (l₁ ++ l₂) = astSizeL l₁ + astSizeL l₂ := by
  induction l₁ with
  | nil => simp [astSizeL]
  | cons a l ih => simp [astSizeL, ih]; omega

theorem astSizeL_toList (o : Option Ast) : astSizeL o.toList = astSizeO o := by
  cases o <;> simp [astSizeL, astSizeO]

theorem astSizeL_filterMap_le (args : List (String × Option Ast)) :
    astSizeL (args.filterMap (·.2)) ≤ astSizeArgs args := by
  induction args with
  | nil => simp [astSizeL, astSizeArgs]
  | cons a l ih =>
    cases h : a.2 with
    | none => simp [List.filterMap_cons, h, astSizeArgs, astSizeO]; omega
    | some x =>
      simp [List.filterMap_cons, h, astSizeArgs, astSizeO, astSizeL]
      omega

theorem astSizeL_walkChildren_lt (a : Ast) :
    astSizeL (walkChildren a) < astSize a := by
  cases a with
  | module body => simp [walkChildren, astSize]
  | functionDef nm args body returns =>
    have h1 := astSizeL_filterMap_le args
    simp [walkChildren, astSize, astSizeL_append, astSizeL_toList]
    omega
  | assign targets value => simp [walkChildren, astSize, astSizeL_append, astSizeL]
  | ret value => simp [walkChildren, astSize, astSizeL_toList]
  | binOp l op r => simp [walkChildren, astSize, astSizeL]
  | name id => simp [walkChildren, astSize, astSizeL]
  | constant v => simp [walkChildren, astSize, astSizeL]
  | subscript v s => simp [walkChildren, astSize, astSizeL]
  | attrNode v a => simp [walkChildren, astSize, astSizeL]
  | tuple elts => simp [walkChildren, astSize]

theorem walk_step_lt (t : Ast) (q : List Ast) :
    astSizeL (q ++ walkChildren t) < astSizeL (t :: q) := by
  simp [astSizeL, astSizeL_append]
  have := astSizeL_walkChildren_lt t
  omega

/-- Breadth-first traversal over a queue of pending nodes, exactly the
deque loop inside `ast.walk`: pop the front node, yield it, push its
children at the back. -/
def walkAux : List Ast → List Ast
  | [] => []
  | t :: q => t :: walkAux (q ++ walkChildren t)
termination_by l => astSizeL l
decreasing_by
  exact walk_step_lt _ _

/-- `ast.walk(code)`: the root first, then breadth-first. -/
def walk (code : Ast) : List Ast := walkAux [code]

/-- `get_first_function_decl` (src/main.py lines 9-15): the first
`FunctionDef` met in `ast.walk` order; falling off the loop returns
Python `None`. -/
def get_first_function_decl (code : Ast) : Option Ast :=
  (walk code).find? isFunctionDef

/-- z3 sorts the program can mention: `z3.BitVecSort(w)` and the
`Z3PyValue` algebraic datatype sort created at module top level. -/
inductive Z3Sort where
  | bitVecSort (w : Nat)
  | z3PyValueSort
deriving DecidableEq, Repr

/-- z3 expressions the program allocates: only `z3.BitVec(name, w)`
constants are ever created. -/
inductive Z3Expr where
  | bitVecConst (name : String) (w : Nat)
deriving DecidableEq, Repr

/-- The sort of a z3 expression. -/
def Z3Expr.sort : Z3Expr → Z3Sort
  | .bitVecConst _ w => .bitVecSort w

/-- The constructors declared on the `Z3PyType` datatype
(src/main.py lines 20-26): `int`, `str`, `bool`, `list ("type", Z3PyType)`
and `none`.  `pytype_to_z3type` returns these constructor references. -/
inductive Z3PyTypeCtor where
  | int
  | str
  | bool
  | list
  | none
deriving DecidableEq, Repr

/-- Every `Z3PyType` constructor builds values of the `Z3PyValue`
datatype sort (the `list` constructor after receiving its field). -/
def Z3PyTypeCtor.sort : Z3PyTypeCtor → Z3Sort := fun _ => .z3PyValueSort

/-- Python exceptions raised by the program. -/
inductive PyErr where
  | notImplementedError (msg : String)
  | valueError (msg : String)
deriving DecidableEq, Repr

/-- `pytype_to_z3type` (src/main.py lines 29-59), exceptions made
explicit.  The f-string repr of a whole subscript node (line 56) is
elided from the message, the constant prefix is kept. -/
def pytype_to_z3type : Ast → Except PyErr Z3PyTypeCtor
  | .name pid =>
    match pid with
    | "int" => .ok .int
    | "str" => .ok .str
    | "bool" => .ok .bool
    | "list" => .error (.notImplementedError "list type without arg not implemented")
    | "None" => .ok .none
    | _ => .error (.notImplementedError ("Unimplemented type " ++ pid))
  | .subscript value _ =>
    match value with
    | .name "List" => .error (.notImplementedError "list type not yet implemented")
    | _ => .error (.notImplementedError "Unimplemented subscript type ")
  | _ => .error (.valueError "The given AST node is not a type annotation: ")

/-- The closed resolvable set named by the specification:
{int, str, bool, none, list-of-X where X is itself resolvable}.
This definition follows the specification's words (for comparison with
`pytype_to_z3type`), not the source. -/
def specResolvable : Ast → Bool
  | .name "int" => true
  | .name "str" => true
  | .name "bool" => true
  | .name "None" => true
  | .subscript (.name "List") s => specResolvable s
  | _ => false

/-- `true` exactly on the node shapes `pytype_to_z3type` treats as type
annotations (`ast.Name` and `ast.Subscript`). -/
def isNameOrSubscript : Ast → Bool
  | .name _ => true
  | .subscript _ _ => true
  | _ => false

/-- A formula a solver assertion could carry.  `SolverVisitor` never
asserts anything, so this type only fixes the type of the assertion
list. -/
inductive Z3Formula where
  | eqF (a b : Z3Expr)
deriving DecidableEq, Repr

/-- `z3.Function(name, *sorts)`: an uninterpreted function symbol; the
last sort of `domainAndRange` is the range. -/
structure Z3Func where
  name : String
  domainAndRange : List Z3Sort
deriving DecidableEq, Repr

/-- The mutable attributes a `SolverVisitor` instance holds
(src/main.py lines 62-75).  `solverAsserts` is the assertion list of the
`z3.Solver` (the timeout parameter is solver configuration, not state the
program reads).  `env` stores exactly what the Python dict stores: either
a z3 constant or Python `None` (hence `Option Z3Expr` values). -/
structure SolverVisitor where
  solverAsserts : List Z3Formula
  fundecl : Option Ast
  z3_args : List Z3Expr
  z3_ret : Option Z3Expr
  z3_func : Option Z3Func
  env : List (String × Option Z3Expr)

/-- `SolverVisitor.__init__`: a fresh solver with no assertions, no
function declaration seen yet, empty argument list and environment. -/
def SolverVisitor.init : SolverVisitor :=
  { solverAsserts := []
    fundecl := none
    z3_args := []
    z3_ret := none
    z3_func := none
    env := [] }

/-- Python dict assignment `env[k] = v`: replace in place if the key
exists (keeping its position), append otherwise. -/
def envInsert : List (String × Option Z3Expr) → String → Option Z3Expr →
    List (String × Option Z3Expr)
  | [], k, v => [(k, v)]
  | (k', v') :: rest, k, v =>
    if k' = k then (k, v) :: rest else (k', v') :: envInsert rest k v

/-- Python dict lookup: `some v` when the key is present (`v` itself may
be `none`, i.e. Python `None`), `none` when the key is absent. -/
def envLookup : List (String × Option Z3Expr) → String → Option (Option Z3Expr)
  | [], _ => none
  | (k', v') :: rest, k => if k' = k then some v' else envLookup rest k

/-- The parameter loop of `visit_FunctionDef` (src/main.py lines 98-101):
for each argument allocate `z3.BitVec("__arg_<name>", 64)`, append it to
`z3_args` and bind it in `env` — the annotation in the pair is never
examined. -/
def bindParams (st : SolverVisitor) : List (String × Option Ast) → SolverVisitor
  | [] => st
  | (a, _) :: rest =>
    let const := Z3Expr.bitVecConst ("__arg_" ++ a) 64
    bindParams
      { st with
        z3_args := st.z3_args ++ [const]
        env := envInsert st.env a (some const) } rest

theorem d_vlHead (c : Ast) (cs : List Ast) :
    3 * astSize c + 1 < 3 * astSizeL (c :: cs) + 2 := by
  simp [astSizeL]; omega

theorem d_vlTail (c : Ast) (cs : List Ast) :
    3 * astSizeL cs + 2 < 3 * astSizeL (c :: cs) + 2 := by
  have := astSize_pos c
  simp [astSizeL]; omega

theorem d_bodyHead (c : Ast) (cs : List Ast) :
    3 * astSize c < 3 * astSizeL (c :: cs) + 2 := by
  simp [astSizeL]; omega

theorem d_atVisit (t : Ast) (ts : List Ast) (v : Ast) :
    3 * astSize v + 1 < 3 * (astSizeL (t :: ts) + astSize v) + 2 := by
  simp [astSizeL]; omega

theorem d_atTail (t : Ast) (ts : List Ast) (v : Ast) :
    3 * (astSizeL ts + astSize v) + 2 <
      3 * (astSizeL (t :: ts) + astSize v) + 2 := by
  have := astSize_pos t
  simp [astSizeL]; omega

theorem d_visit (n : Ast) : 3 * astSize n < 3 * astSize n + 1 := by omega

theorem d_module (body : List Ast) :
    3 * astSizeL body + 2 < 3 * astSize (Ast.module body) := by
  simp [astSize]; omega

theorem d_fd (nm : String) (args : List (String × Option Ast))
    (body : List Ast) (returns : Option Ast) :
    3 * astSizeL body + 2 < 3 * astSize (Ast.functionDef nm args body returns) := by
  simp [astSize]; omega

theorem d_assign (targets : List Ast) (value : Ast) :
    3 * (astSizeL targets + astSize value) + 2 <
      3 * astSize (Ast.assign targets value) := by
  simp [astSize]; omega

theorem d_ret (v : Option Ast) :
    3 * astSizeL v.toList + 2 < 3 * astSize (Ast.ret v) := by
  simp [astSize, astSizeL_toList]; omega

theorem d_binop (l : Ast) (op : BinOpKind) (r : Ast) :
    3 * astSizeL [l, r] + 2 < 3 * astSize (Ast.binOp l op r) := by
  simp [astSize, astSizeL]; omega

theorem d_subscript (v s : Ast) :
    3 * astSizeL [v, s] + 2 < 3 * astSize (Ast.subscript v s) := by
  simp [astSize, astSizeL]; omega

theorem d_attr (v : Ast) (a : String) :
    3 * astSizeL [v] + 2 < 3 * astSize (Ast.attrNode v a) := by
  simp [astSize, astSizeL]; omega

theorem d_tuple (elts : List Ast) :
    3 * astSizeL elts + 2 < 3 * astSize (Ast.tuple elts) := by
  simp [astSize]; omega

mutual

/-- `ast.NodeVisitor.visit` (what `super().visit(node)` runs): dispatch
to the `visit_<ClassName>` method when `SolverVisitor` defines one
(`FunctionDef`, `BinOp`, `Assign`, `Name`, `Return`), otherwise
`generic_visit`, i.e. visit every child node in field order and return
Python `None`.  Each arm below is commented with the method it embeds;
a raised exception is an `Except.error` and aborts the traversal. -/
def superVisit (st : SolverVisitor) : Ast → Except PyErr (SolverVisitor × Option Z3Expr)
  | .functionDef nm args body returns =>
    -- visit_FunctionDef (src/main.py lines 91-109)
    match st.fundecl with
    | some _ => .error (.valueError "Only one function declaration is allowed")
    | none =>
      let st1 := { st with fundecl := some (.functionDef nm args body returns) }
      let st2 := bindParams st1 args
      let st3 := { st2 with z3_ret := some (.bitVecConst "__ret" 64) }
      let st4 := { st3 with
        z3_func := some ⟨nm, List.replicate (st3.z3_args.length + 1) (.bitVecSort 64)⟩ }
      match visitBody st4 body with
      | .error e => .error e
      | .ok st5 => .ok (st5, none)
  | .binOp l _ r =>
    -- visit_BinOp (lines 111-113): print, then generic_visit; the
    -- operator node has no children and no visitor, so visiting it is a
    -- no-op and only `left` and `right` are traversed.
    match visitList st [l, r] with
    | .error e => .error e
    | .ok st' => .ok (st', none)
  | .assign targets value =>
    -- visit_Assign (lines 116-125)
    match assignTargets st targets value with
    | .error e => .error e
    | .ok st' => .ok (st', none)
  | .name nid =>
    -- visit_Name (lines 127-132): look the name up in the environment,
    -- returning what the dict stores, or raise ValueError.
    match envLookup st.env nid with
    | some v => .ok (st, v)
    | none => .error (.valueError ("Undefined variable " ++ nid))
  | .ret value =>
    -- visit_Return (lines 134-136): print, then generic_visit.
    match visitList st value.toList with
    | .error e => .error e
    | .ok st' => .ok (st', none)
  | .module body =>
    -- no visit_Module: generic_visit over the module body.
    match visitList st body with
    | .error e => .error e
    | .ok st' => .ok (st', none)
  | .constant _ =>
    -- no visit_Constant: generic_visit over no children.
    .ok (st, none)
  | .subscript v s =>
    -- no visit_Subscript: generic_visit over value and slice.
    match visitList st [v, s] with
    | .error e => .error e
    | .ok st' => .ok (st', none)
  | .attrNode v _ =>
    -- no visit_Attribute: generic_visit over the value.
    match visitList st [v] with
    | .error e => .error e
    | .ok st' => .ok (st', none)
  | .tuple elts =>
    -- no visit_Tuple: generic_visit over the elements.
    match visitList st elts with
    | .error e => .error e
    | .ok st' => .ok (st', none)
termination_by n => 3 * astSize n
decreasing_by
  all_goals first
    | exact d_fd _ _ _ _
    | exact d_binop _ _ _
    | exact d_assign _ _
    | exact d_ret _
    | exact d_module _
    | exact d_subscript _ _

/-- `SolverVisitor.visit` (src/main.py lines 87-89), the override every
`self.visit(...)` call lands on: run the dispatcher, then return `None`
regardless of what the visitor method produced. -/
def visit (st : SolverVisitor) (n : Ast) : Except PyErr (SolverVisitor × Option Z3Expr) :=
  match superVisit st n with
  | .error e => .error e
  | .ok (st', _) => .ok (st', none)
termination_by 3 * astSize n + 1
decreasing_by
  exact d_visit _

/-- The loop inside `generic_visit`: visit each child through
`self.visit` (the override), threading the instance state. -/
def visitList (st : SolverVisitor) : List Ast → Except PyErr SolverVisitor
  | [] => .ok st
  | c :: cs =>
    match visit st c with
    | .error e => .error e
    | .ok (st', _) => visitList st' cs
termination_by l => 3 * astSizeL l + 2
decreasing_by
  · exact d_vlHead _ _
  · exact d_vlTail _ _

/-- The statement loop of `visit_FunctionDef` (line 108-109): each body
statement goes through `super().visit(stmt)` (the dispatcher), its
return value discarded. -/
def visitBody (st : SolverVisitor) : List Ast → Except PyErr SolverVisitor
  | [] => .ok st
  | c :: cs =>
    match superVisit st c with
    | .error e => .error e
    | .ok (st', _) => visitBody st' cs
termination_by l => 3 * astSizeL l + 2
decreasing_by
  · exact d_bodyHead _ _
  · exact d_vlTail _ _

/-- The target loop of `visit_Assign` (lines 117-123): for each target
that is a bare name, evaluate the right-hand side through `self.visit`
(whose result is stored into the dict — it is always Python `None`),
otherwise raise `NotImplementedError`.  Note the value is re-visited
once per target. -/
def assignTargets (st : SolverVisitor) : List Ast → Ast → Except PyErr SolverVisitor
  | [], _ => .ok st
  | t :: ts, value =>
    match t with
    | .name tid =>
      match visit st value with
      | .error e => .error e
      | .ok (st', r) =>
        assignTargets { st' with env := envInsert st'.env tid r } ts value
    | _ => .error (.notImplementedError "Unimplemented assignment target ")
termination_by ts v => 3 * (astSizeL ts + astSize v) + 2
decreasing_by
  · exact d_atVisit _ _ _
  · exact d_atTail _ _ _

end

/-- One encoding invocation as the demo entry point performs it
(src/main.py line 157): construct a fresh `SolverVisitor` and call
`.visit` on the function definition. -/
def encode (f : Ast) : Except PyErr (SolverVisitor × Option Z3Expr) :=
  visit SolverVisitor.init f

/-- Encoding a sequence of functions, a fresh visitor instance per
invocation. -/
def encodeAll (fs : List Ast) : List (Except PyErr (SolverVisitor × Option Z3Expr)) :=
  fs.map encode

end Semhash

namespace SpecModel

/-- Modelled from the spec: the Value Sort tagged union of section 3
("a tagged union with variants Int, Str, Bool, List(elementSort),
None"); no code for the finished Type Model exists in src/. -/
inductive VSort where
  | intS
  | strS
  | boolS
  | noneS
  | listS (elem : VSort)
deriving DecidableEq, Repr

/-- Modelled from the spec: formula-level terms over Symbolic Constants
(identified by allocation number) — the fragment the supported
expression forms of section 4.2 produce: integer literals, constants,
and addition. -/
inductive Term where
  | const (id : Nat)
  | intLit (n : Int)
  | add (a b : Term)
deriving DecidableEq, Repr

/-- Modelled from the spec: a constraint formula, an equality between
two terms (section 3's Constraint Set examples are all equalities). -/
inductive Formula where
  | eq (a b : Term)
deriving DecidableEq, Repr

/-- Modelled from the spec: a Function Encoder output — the Signature
(parameter sorts after name erasure plus return sort), the parameter
constants in order, the Return Constant, and the ordered Constraint
Set. -/
structure Encoding where
  sig : List VSort
  retSort : VSort
  params : List Nat
  retConst : Nat
  constraints : List Formula
deriving DecidableEq, Repr

/-- Value of a term under an assignment of integers to the symbolic
constants (the int-sorted fragment suffices for the functions below). -/
def evalTerm (v : Nat → Int) : Term → Int
  | .const i => v i
  | .intLit n => n
  | .add a b => evalTerm v a + evalTerm v b

/-- A formula holds under an assignment. -/
def holdsF (v : Nat → Int) : Formula → Prop
  | .eq a b => evalTerm v a = evalTerm v b

/-- All constraints of an encoding hold under an assignment. -/
def satAll (v : Nat → Int) (e : Encoding) : Prop :=
  ∀ φ ∈ e.constraints, holdsF v φ

/-- Signature compatibility (section 3): identical signatures after
parameter-name erasure. -/
def sigCompatible (a b : Encoding) : Prop :=
  a.sig = b.sig ∧ a.retSort = b.retSort

/-- Modelled from the spec (section 4.3, no oracle code in src/): the
Equivalence Oracle proves two encodings Equivalent when asserting both
constraint sets, parameter-wise equality, and disequality of the two
Return Constants is unsatisfiable.  Each encoding's constants are its
own (never aliased across encodings), hence one assignment per
encoding; the unsatisfiability of the disequality is stated in the
classically equivalent universal form. -/
def OracleEquivalent (a b : Encoding) : Prop :=
  sigCompatible a b ∧
    ∀ va vb : Nat → Int, satAll va a → satAll vb b →
      (∀ p ∈ a.params.zip b.params, va p.1 = vb p.2) →
      va a.retConst = vb b.retConst

/-- Symbolic constants of a term in traversal order. -/
def termConsts : Term → List Nat
  | .const i => [i]
  | .intLit _ => []
  | .add a b => termConsts a ++ termConsts b

/-- Symbolic constants of a formula in traversal order. -/
def formulaConsts : Formula → List Nat
  | .eq a b => termConsts a ++ termConsts b

/-- Append an element unless already seen (keeps first appearances in
order). -/
def insertFA (l : List Nat) (x : Nat) : List Nat :=
  if x ∈ l then l else l ++ [x]

/-- The symbolic constants of an encoding's constraint set in order of
first appearance under the fixed formula traversal. -/
def firstAppear (e : Encoding) : List Nat :=
  ((e.constraints.map formulaConsts).flatten).foldl insertFA []

/-- Index of the first occurrence (0 when absent). -/
def idxOfN (x : Nat) : List Nat → Nat
  | [] => 0
  | y :: l => if y = x then 0 else idxOfN x l + 1

/-- Rename the symbolic constants of a term. -/
def renameTerm (ρ : Nat → Nat) : Term → Term
  | .const i => .const (ρ i)
  | .intLit n => .intLit n
  | .add a b => .add (renameTerm ρ a) (renameTerm ρ b)

/-- Rename the symbolic constants of a formula. -/
def renameFormula (ρ : Nat → Nat) : Formula → Formula
  | .eq a b => .eq (renameTerm ρ a) (renameTerm ρ b)

/-- Modelled from the spec (section 4.4): canonicalization renumbers the
Symbolic Constants of the Constraint Set by first-appearance order in
the fixed formula traversal. -/
def canonicalize (e : Encoding) : List Formula :=
  e.constraints.map (renameFormula (fun i => idxOfN i (firstAppear e)))

/-- Deterministic serialization of a sort to tokens. -/
def serSort : VSort → List Nat
  | .intS => [0]
  | .strS => [1]
  | .boolS => [2]
  | .noneS => [3]
  | .listS e => 4 :: serSort e

/-- Deterministic serialization of a term to tokens. -/
def serTerm : Term → List Nat
  | .const i => [5, i]
  | .intLit n => [6, 2 * n.natAbs + (if n < 0 then 1 else 0)]
  | .add a b => 7 :: (serTerm a ++ serTerm b)

/-- Deterministic serialization of a formula to tokens. -/
def serFormula : Formula → List Nat
  | .eq a b => 8 :: (serTerm a ++ serTerm b)

/-- Modelled from the spec (section 4.4): serialize the canonicalized
Constraint Set plus the Signature deterministically. -/
def serialize (e : Encoding) : List Nat :=
  ((canonicalize e).map serFormula).flatten ++ [9] ++
    (e.sig.map serSort).flatten ++ [10] ++ serSort e.retSort

/-- A fixed-width digest of a token stream (a 64-bit polynomial hash). -/
def hashTokens (ts : List Nat) : Nat :=
  ts.foldl (fun h t => (h * 1000003 + t + 1) % (2 ^ 64)) 5381

/-- Modelled from the spec (section 4.4, no fingerprint code in src/):
canonicalize, serialize, hash. -/
def fingerprint (e : Encoding) : Nat :=
  hashTokens (serialize e)

/-- Renaming every symbolic constant of an encoding (what varying
incidental allocation order or naming does to an independently built
encoding of the same structure). -/
def renameEncoding (ρ : Nat → Nat) (e : Encoding) : Encoding :=
  { e with
    params := e.params.map ρ
    retConst := ρ e.retConst
    constraints := e.constraints.map (renameFormula ρ) }

/-- Modelled from the spec: source-level expressions of the supported
subset of section 4.2.4 (an int literal, a name reference, an int
addition). -/
inductive SExpr where
  | intLit (n : Int)
  | nameRef (s : String)
  | addOf (a b : SExpr)
deriving DecidableEq, Repr

/-- Modelled from the spec: the supported statement forms of section
4.2.3 (assignment to a single name, return). -/
inductive SStmt where
  | assignTo (n : String) (e : SExpr)
  | returnOf (e : SExpr)
deriving DecidableEq, Repr

/-- Modelled from the spec: a function definition as the Function
Encoder consumes it — ordered parameters with resolved Value Sorts, the
declared return sort, the statement body. -/
structure SFunctionDef where
  params : List (String × VSort)
  retSort : VSort
  body : List SStmt
deriving DecidableEq, Repr

/-- Modelled from the spec: the structured failures of section 7 that
the encoder below can report. -/
inductive SpecErr where
  | unsupportedConstruct
  | undefinedVariable (n : String)
deriving DecidableEq, Repr

/-- Encoder state: next fresh constant id, the Symbolic Environment
(name to constant id and sort), the Constraint Set so far, and whether
a return statement has been encoded. -/
structure EncState where
  nextId : Nat
  env : List (String × (Nat × VSort))
  constraints : List Formula
  returned : Bool
deriving DecidableEq, Repr

/-- Environment lookup (first binding wins; rebinding shadows by
consing). -/
def lookupEnv (env : List (String × (Nat × VSort))) (n : String) :
    Option (Nat × VSort) :=
  match env with
  | [] => none
  | (k, v) :: rest => if k = n then some v else lookupEnv rest n

/-- Modelled from the spec (section 4.2.4): evaluate an expression to a
term and its Value Sort — a literal maps to the constant value, a name
resolves via the environment (UndefinedVariable when unbound), addition
requires both operands of sort Int. -/
def evalSExpr (st : EncState) : SExpr → Except SpecErr (Term × VSort)
  | .intLit n => .ok (.intLit n, .intS)
  | .nameRef s =>
    match lookupEnv st.env s with
    | some (i, srt) => .ok (.const i, srt)
    | none => .error (.undefinedVariable s)
  | .addOf a b =>
    match evalSExpr st a with
    | .error e => .error e
    | .ok (ta, sa) =>
      match evalSExpr st b with
      | .error e => .error e
      | .ok (tb, sb) =>
        if sa = .intS ∧ sb = .intS then .ok (.add ta tb, .intS)
        else .error .unsupportedConstruct

/-- Modelled from the spec (section 4.2.3): encode one statement.
Assignment evaluates the right-hand side, allocates a fresh constant
constrained equal to it and rebinds the name (shadowing); return adds a
constraint that the Return Constant equals the value. -/
def encodeStmt (retConst : Nat) (st : EncState) : SStmt → Except SpecErr EncState
  | .assignTo n e =>
    match evalSExpr st e with
    | .error err => .error err
    | .ok (t, srt) =>
      .ok { st with
        nextId := st.nextId + 1
        env := (n, (st.nextId, srt)) :: st.env
        constraints := st.constraints ++ [.eq (.const st.nextId) t] }
  | .returnOf e =>
    match evalSExpr st e with
    | .error err => .error err
    | .ok (t, _) =>
      .ok { st with
        constraints := st.constraints ++ [.eq (.const retConst) t]
        returned := true }

/-- Encode a statement sequence in textual order. -/
def encodeBody (retConst : Nat) (st : EncState) :
    List SStmt → Except SpecErr EncState
  | [] => .ok st
  | s :: rest =>
    match encodeStmt retConst st s with
    | .error err => .error err
    | .ok st' => encodeBody retConst st' rest

/-- Bind the parameters: one fresh Symbolic Constant each, in order. -/
def bindSParams (st : EncState) :
    List (String × VSort) → EncState × List Nat
  | [] => (st, [])
  | (n, srt) :: rest =>
    let st' := { st with
      nextId := st.nextId + 1
      env := (n, (st.nextId, srt)) :: st.env }
    let (stFin, ids) := bindSParams st' rest
    (stFin, st.nextId :: ids)

/-- Modelled from the spec (section 4.2, `encode(functionDef)`): bind
the parameters, allocate the Return Constant, process the body in
textual order, and fail with UnsupportedConstruct when no return was
encoded. -/
def encodeSpec (f : SFunctionDef) : Except SpecErr Encoding :=
  let (st0, paramIds) := bindSParams ⟨0, [], [], false⟩ f.params
  let retConst := st0.nextId
  let st1 := { st0 with nextId := st0.nextId + 1 }
  match encodeBody retConst st1 f.body with
  | .error err => .error err
  | .ok st2 =>
    if st2.returned then
      .ok { sig := f.params.map Prod.snd
            retSort := f.retSort
            params := paramIds
            retConst := retConst
            constraints := st2.constraints }
    else .error .unsupportedConstruct

/-- The specification's end-to-end example 1, first function:
`f(x: int) -> int: return x + 2`. -/
def fSpec1 : SFunctionDef :=
  { params := [("x", .intS)]
    retSort := .intS
    body := [.returnOf (.addOf (.nameRef "x") (.intLit 2))] }

/-- The specification's end-to-end example 1, second function:
`g(x: int) -> int: y = 2; return x + y`. -/
def fSpec2 : SFunctionDef :=
  { params := [("x", .intS)]
    retSort := .intS
    body := [.assignTo "y" (.intLit 2),
             .returnOf (.addOf (.nameRef "x") (.nameRef "y"))] }

/-- The encoding `encodeSpec` produces for `fSpec1`. -/
def specEncA : Encoding :=
  { sig := [.intS]
    retSort := .intS
    params := [0]
    retConst := 1
    constraints := [.eq (.const 1) (.add (.const 0) (.intLit 2))] }

/-- The encoding `encodeSpec` produces for `fSpec2`. -/
def specEncB : Encoding :=
  { sig := [.intS]
    retSort := .intS
    params := [0]
    retConst := 1
    constraints := [.eq (.const 2) (.intLit 2),
                    .eq (.const 1) (.add (.const 0) (.const 2))] }

end SpecModel

namespace Semhash

/-- `def f(s: str) -> int: return s` — a function whose parameter has a
resolvable non-int annotation. -/
def fParamStr : Ast :=
  .functionDef "f" [("s", some (.name "str"))]
    [.ret (some (.name "s"))] (some (.name "int"))

/-- The state `encode fParamStr` produces. -/
def stParamStr : SolverVisitor :=
  { solverAsserts := []
    fundecl := some fParamStr
    z3_args := [.bitVecConst "__arg_s" 64]
    z3_ret := some (.bitVecConst "__ret" 64)
    z3_func := some ⟨"f", [.bitVecSort 64, .bitVecSort 64]⟩
    env := [("s", some (.bitVecConst "__arg_s" 64))] }

/-- `def f(x: int) -> int: y = 2; return y`. -/
def fAssign : Ast :=
  .functionDef "f" [("x", some (.name "int"))]
    [.assign [.name "y"] (.constant (.intC 2)),
     .ret (some (.name "y"))] (some (.name "int"))

/-- The state `encode fAssign` produces. -/
def stAssign : SolverVisitor :=
  { solverAsserts := []
    fundecl := some fAssign
    z3_args := [.bitVecConst "__arg_x" 64]
    z3_ret := some (.bitVecConst "__ret" 64)
    z3_func := some ⟨"f", [.bitVecSort 64, .bitVecSort 64]⟩
    env := [("x", some (.bitVecConst "__arg_x" 64)), ("y", none)] }

/-- `def f(x: int) -> int: return x`. -/
def fReturn : Ast :=
  .functionDef "f" [("x", some (.name "int"))]
    [.ret (some (.name "x"))] (some (.name "int"))

/-- The state `encode fReturn` produces. -/
def stReturn : SolverVisitor :=
  { solverAsserts := []
    fundecl := some fReturn
    z3_args := [.bitVecConst "__arg_x" 64]
    z3_ret := some (.bitVecConst "__ret" 64)
    z3_func := some ⟨"f", [.bitVecSort 64, .bitVecSort 64]⟩
    env := [("x", some (.bitVecConst "__arg_x" 64))] }

/-- `def f() -> int: a = b = 1` — a multi-target assignment, both
targets bare names. -/
def fMulti : Ast :=
  .functionDef "f" []
    [.assign [.name "a", .name "b"] (.constant (.intC 1))]
    (some (.name "int"))

/-- The state `encode fMulti` produces. -/
def stMulti : SolverVisitor :=
  { solverAsserts := []
    fundecl := some fMulti
    z3_args := []
    z3_ret := some (.bitVecConst "__ret" 64)
    z3_func := some ⟨"f", [.bitVecSort 64]⟩
    env := [("a", none), ("b", none)] }

/-- A visitor state whose environment binds "x" to a z3 constant. -/
def stNameEx : SolverVisitor :=
  { solverAsserts := []
    fundecl := none
    z3_args := []
    z3_ret := none
    z3_func := none
    env := [("x", some (.bitVecConst "c" 64))] }

/-- A module whose first function definition in walk order is `g`,
preceded by an assignment statement. -/
def cWalk : Ast :=
  .module [.assign [.name "a"] (.constant (.intC 1)),
           .functionDef "g" [] [] none]

/-- The function definition node inside `cWalk`. -/
def dWalk : Ast := .functionDef "g" [] [] none

end Semhash

namespace Semhash

/-- C5 counterexample: an annotation node outside the closed resolvable
set that is neither a Name nor a Subscript (the literal `3` in
annotation position) makes `pytype_to_z3type` fail with the generic
`ValueError`, not with the unsupported-type `NotImplementedError` —
refuting "never with a generic or ambiguous error". -/
theorem resolve_nonannotation_generic_error_cex :
    specResolvable (.constant (.intC 3)) = false ∧
    pytype_to_z3type (.constant (.intC 3)) =
      .error (.valueError "The given AST node is not a type annotation: ") :=
  ⟨rfl, rfl⟩

/-- C5 (amended): a Name or Subscript annotation outside the closed set
{int, str, bool, none, list-of-resolvable-X} — bare `list` included —
fails with `NotImplementedError` (the unsupported-type error); an
annotation node of any other shape fails with the generic
`ValueError`. -/
theorem resolve_error_classification (a : Ast) :
    (isNameOrSubscript a = true → specResolvable a = false →
      ∃ m, pytype_to_z3type a = .error (.notImplementedError m)) ∧
    (isNameOrSubscript a = false →
      ∃ m, pytype_to_z3type a = .error (.valueError m)) := by
  cases a with
  | name i =>
    refine ⟨fun _ hres => ?_, fun h => by simp [isNameOrSubscript] at h⟩
    by_cases h1 : i = "int"
    · subst h1; simp [specResolvable] at hres
    by_cases h2 : i = "str"
    · subst h2; simp [specResolvable] at hres
    by_cases h3 : i = "bool"
    · subst h3; simp [specResolvable] at hres
    by_cases h4 : i = "None"
    · subst h4; simp [specResolvable] at hres
    by_cases h5 : i = "list"
    · subst h5; exact ⟨_, rfl⟩
    · exact ⟨"Unimplemented type " ++ i, by simp [pytype_to_z3type, h1, h2, h3, h4, h5]⟩
  | subscript v sl =>
    refine ⟨fun _ _ => ?_, fun h => by simp [isNameOrSubscript] at h⟩
    cases v with
    | name vid =>
      by_cases hv : vid = "List"
      · subst hv; exact ⟨_, rfl⟩
      · exact ⟨"Unimplemented subscript type ", by simp [pytype_to_z3type, hv]⟩
    | module b => exact ⟨_, rfl⟩
    | functionDef nm args body returns => exact ⟨_, rfl⟩
    | assign t val => exact ⟨_, rfl⟩
    | ret val => exact ⟨_, rfl⟩
    | binOp l op r => exact ⟨_, rfl⟩
    | constant c => exact ⟨_, rfl⟩
    | subscript v2 s2 => exact ⟨_, rfl⟩
    | attrNode v2 a2 => exact ⟨_, rfl⟩
    | tuple e2 => exact ⟨_, rfl⟩
  | module b => exact ⟨fun h => by simp [isNameOrSubscript] at h, fun _ => ⟨_, rfl⟩⟩
  | functionDef nm args body returns =>
    exact ⟨fun h => by simp [isNameOrSubscript] at h, fun _ => ⟨_, rfl⟩⟩
  | assign t val => exact ⟨fun h => by simp [isNameOrSubscript] at h, fun _ => ⟨_, rfl⟩⟩
  | ret val => exact ⟨fun h => by simp [isNameOrSubscript] at h, fun _ => ⟨_, rfl⟩⟩
  | binOp l op r => exact ⟨fun h => by simp [isNameOrSubscript] at h, fun _ => ⟨_, rfl⟩⟩
  | constant c => exact ⟨fun h => by simp [isNameOrSubscript] at h, fun _ => ⟨_, rfl⟩⟩
  | attrNode v a2 => exact ⟨fun h => by simp [isNameOrSubscript] at h, fun _ => ⟨_, rfl⟩⟩
  | tuple e2 => exact ⟨fun h => by simp [isNameOrSubscript] at h, fun _ => ⟨_, rfl⟩⟩

/-- Witness for C5's amended theorem at the concrete annotations
`float` (a Name outside the set) and the literal `None` constant. -/
theorem resolve_error_classification_witness :
    (∃ m, pytype_to_z3type (.name "float") = .error (.notImplementedError m)) ∧
    (∃ m, pytype_to_z3type (.constant .noneC) = .error (.valueError m)) :=
  ⟨(resolve_error_classification (.name "float")).1 rfl rfl,
   (resolve_error_classification (.constant .noneC)).2 rfl⟩

/-- C6 counterexample: `List[int]` is inside the specification's closed
resolvable set, yet `pytype_to_z3type` raises
`NotImplementedError("list type not yet implemented")` instead of
returning the parametric list sort. -/
theorem list_int_resolve_fails_cex :
    specResolvable (.subscript (.name "List") (.name "int")) = true ∧
    pytype_to_z3type (.subscript (.name "List") (.name "int")) =
      .error (.notImplementedError "list type not yet implemented") :=
  ⟨rfl, rfl⟩

/-- C6 (amended): resolving a parametric `List[...]` annotation fails
with `NotImplementedError("list type not yet implemented")` for every
element annotation; the resolver never produces the `list` constructor
the `Z3PyType` datatype declares. -/
theorem list_subscript_never_resolves (s : Ast) :
    pytype_to_z3type (.subscript (.name "List") s) =
      .error (.notImplementedError "list type not yet implemented") := rfl

/-- C7: `visit_Name` resolves a bound name to whatever the symbolic
environment currently stores for it and raises
`ValueError("Undefined variable <name>")` for an unbound one. -/
theorem visit_Name_resolves_or_undefined (st : SolverVisitor) (nid : String) :
    (∀ v, envLookup st.env nid = some v → superVisit st (.name nid) = .ok (st, v)) ∧
    (envLookup st.env nid = none →
      superVisit st (.name nid) =
        .error (.valueError ("Undefined variable " ++ nid))) := by
  constructor
  · intro v h
    simp [superVisit, h]
  · intro h
    simp [superVisit, h]

/-- Witness for C7 at a concrete environment: "x" is bound (to the
constant `c`), "y" is not. -/
theorem visit_Name_resolves_or_undefined_witness :
    superVisit stNameEx (.name "x") =
      .ok (stNameEx, some (.bitVecConst "c" 64)) ∧
    superVisit stNameEx (.name "y") =
      .error (.valueError ("Undefined variable " ++ "y")) :=
  ⟨(visit_Name_resolves_or_undefined stNameEx "x").1 _ rfl,
   (visit_Name_resolves_or_undefined stNameEx "y").2 rfl⟩

/-- C8 counterexample: the multi-target assignment `a = b = 1` (its
target list is two bare names, not a single bare name) is encoded
without any error — both names are bound — rather than failing with
`NotImplementedError`. -/
theorem multi_name_target_assign_encoded_cex :
    encode fMulti = .ok (stMulti, none) ∧
    envLookup stMulti.env "a" = some none ∧
    envLookup stMulti.env "b" = some none := by
  refine ⟨?_, rfl, rfl⟩
  simp [encode, fMulti, stMulti, visit, superVisit, visitBody, visitList,
    assignTargets, bindParams, envInsert, envLookup, SolverVisitor.init]

/-- C8 (amended): `visit_Assign` raises
`NotImplementedError("Unimplemented assignment target ...")` exactly
when the loop reaches a target that is not a bare name — in particular
whenever the first target is a tuple, attribute or subscript — and an
assignment whose targets are all bare names is encoded by binding each
of them. -/
theorem assign_nonname_first_target_errors (st : SolverVisitor)
    (ts : List Ast) (v t : Ast) (h : isName t = false) :
    assignTargets st (t :: ts) v =
      .error (.notImplementedError "Unimplemented assignment target ") := by
  cases t <;> simp [isName] at h ⊢ <;> simp [assignTargets]

/-- Witness for C8's amended theorem: a tuple first target fails at
once. -/
theorem assign_nonname_first_target_errors_witness :
    assignTargets SolverVisitor.init
      [.tuple [.name "a", .name "b"], .name "c"] (.constant (.intC 1)) =
      .error (.notImplementedError "Unimplemented assignment target ") :=
  assign_nonname_first_target_errors SolverVisitor.init _ _ _ rfl

/-- C9: each encoding invocation constructs a fresh `SolverVisitor`
(empty environment, empty assertion list, no function seen) and the
result of encoding a function is the same whatever was encoded before
it. -/
theorem encode_invocation_independent (fs : List Ast) (f : Ast) :
    (encodeAll (fs ++ [f])).getLast? = some (encode f) ∧
    encodeAll (fs ++ [f]) = encodeAll fs ++ [encode f] ∧
    SolverVisitor.init.env = [] ∧
    SolverVisitor.init.solverAsserts = [] ∧
    SolverVisitor.init.fundecl = none ∧
    encode f = visit SolverVisitor.init f := by
  refine ⟨?_, ?_, rfl, rfl, rfl, rfl⟩
  · simp [encodeAll]
  · simp [encodeAll]

end Semhash

namespace Semhash

theorem envLookup_insert_self (env : List (String × Option Z3Expr))
    (k : String) (v : Option Z3Expr) :
    envLookup (envInsert env k v) k = some v := by
  induction env with
  | nil => simp [envInsert, envLookup]
  | cons p rest ih =>
    by_cases h : p.1 = k
    · simp [envInsert, envLookup, h]
    · simp [envInsert, envLookup, h, ih]

theorem envLookup_insert_other (env : List (String × Option Z3Expr))
    (k k' : String) (v : Option Z3Expr) (h : k ≠ k') :
    envLookup (envInsert env k v) k' = envLookup env k' := by
  induction env with
  | nil => simp [envInsert, envLookup, h]
  | cons p rest ih =>
    by_cases hp : p.1 = k
    · simp [envInsert, envLookup, hp, h]
    · simp [envInsert, envLookup, hp, ih]

theorem bindParams_names_only (args args' : List (String × Option Ast)) :
    ∀ st : SolverVisitor, args.map Prod.fst = args'.map Prod.fst →
      bindParams st args = bindParams st args' := by
  induction args generalizing args' with
  | nil =>
    intro st h
    cases args' with
    | nil => rfl
    | cons b bs => simp at h
  | cons a rest ih =>
    intro st h
    cases args' with
    | nil => simp at h
    | cons b bs =>
      obtain ⟨a1, a2⟩ := a
      obtain ⟨b1, b2⟩ := b
      simp at h
      obtain ⟨h1, h2⟩ := h
      subst h1
      simp [bindParams]
      exact ih bs _ h2

theorem bindParams_z3_args (args : List (String × Option Ast)) :
    ∀ st : SolverVisitor,
      (bindParams st args).z3_args =
        st.z3_args ++ args.map (fun a => Z3Expr.bitVecConst ("__arg_" ++ a.1) 64) := by
  induction args with
  | nil => intro st; simp [bindParams]
  | cons a rest ih =>
    intro st
    obtain ⟨a1, a2⟩ := a
    simp [bindParams, ih]

theorem bindParams_env_not_mem (args : List (String × Option Ast)) :
    ∀ (st : SolverVisitor) (p : String), p ∉ args.map Prod.fst →
      envLookup (bindParams st args).env p = envLookup st.env p := by
  induction args with
  | nil => intro st p _; rfl
  | cons a rest ih =>
    intro st p hp
    obtain ⟨a1, a2⟩ := a
    simp only [List.map_cons, List.mem_cons, not_or] at hp
    obtain ⟨hp1, hp2⟩ := hp
    simp [bindParams]
    rw [ih _ p hp2]
    exact envLookup_insert_other _ _ _ _ (fun h => hp1 h.symm)

theorem bindParams_env_mem (args : List (String × Option Ast)) :
    ∀ (st : SolverVisitor) (p : String), p ∈ args.map Prod.fst →
      envLookup (bindParams st args).env p =
        some (some (Z3Expr.bitVecConst ("__arg_" ++ p) 64)) := by
  induction args with
  | nil => intro st p hp; simp at hp
  | cons a rest ih =>
    intro st p hp
    obtain ⟨a1, a2⟩ := a
    by_cases hmem : p ∈ rest.map Prod.fst
    · simp [bindParams]
      exact ih _ p hmem
    · simp only [List.map_cons, List.mem_cons] at hp
      rcases hp with hp | hp
      · subst hp
        simp [bindParams]
        rw [bindParams_env_not_mem rest _ p hmem]
        exact envLookup_insert_self _ _ _
      · exact absurd hp hmem

/-- C2 counterexample: the parameter `s` of `fParamStr` is annotated
`str`, an annotation the resolver maps to the `str` constructor of the
`Z3PyValue` datatype sort — yet `visit_FunctionDef` binds `s` to a
64-bit bit-vector constant, whose sort is not the Value Sort the
annotation resolves to (the resolver is never called). -/
theorem encode_ignores_param_annotation_cex :
    encode fParamStr = .ok (stParamStr, none) ∧
    envLookup stParamStr.env "s" =
      some (some (.bitVecConst "__arg_s" 64)) ∧
    pytype_to_z3type (.name "str") = .ok Z3PyTypeCtor.str ∧
    (Z3Expr.bitVecConst "__arg_s" 64).sort = .bitVecSort 64 ∧
    Z3PyTypeCtor.str.sort = .z3PyValueSort ∧
    Z3Sort.bitVecSort 64 ≠ Z3Sort.z3PyValueSort := by
  refine ⟨?_, rfl, rfl, rfl, rfl, by decide⟩
  simp [encode, fParamStr, stParamStr, visit, superVisit, visitBody,
    visitList, bindParams, envInsert, envLookup, SolverVisitor.init]

/-- C2 (amended): the parameter loop of `visit_FunctionDef` ignores the
annotations entirely — any two parameter lists with the same names bind
identically — and gives every parameter a fresh 64-bit bit-vector
constant named `__arg_<param>`, bound in the environment under the
parameter's name. -/
theorem bindParams_bitvec64_ignores_annotations (st : SolverVisitor)
    (args args' : List (String × Option Ast)) (p : String) :
    (args.map Prod.fst = args'.map Prod.fst →
      bindParams st args = bindParams st args') ∧
    (bindParams st args).z3_args =
      st.z3_args ++ args.map (fun a => Z3Expr.bitVecConst ("__arg_" ++ a.1) 64) ∧
    (p ∈ args.map Prod.fst →
      envLookup (bindParams st args).env p =
        some (some (Z3Expr.bitVecConst ("__arg_" ++ p) 64))) :=
  ⟨fun h => bindParams_names_only args args' st h,
   bindParams_z3_args args st,
   fun hp => bindParams_env_mem args st p hp⟩

/-- Witness for C2's amended theorem: same names with different
annotations bind identically, and the parameter `x` is bound to
`__arg_x : BitVec64`. -/
theorem bindParams_bitvec64_ignores_annotations_witness :
    (bindParams SolverVisitor.init [("x", some (.name "int"))] =
      bindParams SolverVisitor.init [("x", some (.name "str"))]) ∧
    (bindParams SolverVisitor.init [("x", some (.name "int"))]).z3_args =
      SolverVisitor.init.z3_args ++
        [("x", some (Ast.name "int"))].map
          (fun a => Z3Expr.bitVecConst ("__arg_" ++ a.1) 64) ∧
    envLookup (bindParams SolverVisitor.init [("x", some (.name "int"))]).env "x" =
      some (some (Z3Expr.bitVecConst ("__arg_" ++ "x") 64)) := by
  have h := bindParams_bitvec64_ignores_annotations SolverVisitor.init
    [("x", some (.name "int"))] [("x", some (.name "str"))] "x"
  exact ⟨h.1 rfl, h.2.1, h.2.2 (by simp)⟩

/-- C3: at the failing input `def f(x: int) -> int: y = 2; return y`
the assignment leaves `y` bound to Python `None` (the `visit` override
discards the evaluated value) and the constraint set stays empty — no
fresh constant, no equality constraint. -/
theorem assign_binds_none_no_constraint :
    encode fAssign = .ok (stAssign, none) ∧
    envLookup stAssign.env "y" = some none ∧
    stAssign.solverAsserts = [] := by
  refine ⟨?_, rfl, rfl⟩
  simp [encode, fAssign, stAssign, visit, superVisit, visitBody, visitList,
    assignTargets, bindParams, envInsert, envLookup, SolverVisitor.init]

/-- C4: at the failing input `def f(x: int) -> int: return x` the
return constant `__ret` is allocated but `visit_Return` adds no
constraint — the solver's assertion list stays empty, so nothing
relates the Return Constant to the returned expression. -/
theorem return_adds_no_constraint :
    encode fReturn = .ok (stReturn, none) ∧
    stReturn.z3_ret = some (.bitVecConst "__ret" 64) ∧
    stReturn.solverAsserts = [] := by
  refine ⟨?_, rfl, rfl⟩
  simp [encode, fReturn, stReturn, visit, superVisit, visitBody, visitList,
    bindParams, envInsert, envLookup, SolverVisitor.init]

end Semhash

namespace Semhash

theorem find?_eq_some_split {α : Type} (p : α → Bool) (l : List α) (a : α)
    (h : l.find? p = some a) :
    p a = true ∧ ∃ l₁ l₂, l = l₁ ++ a :: l₂ ∧ ∀ b ∈ l₁, p b = false := by
  induction l with
  | nil => simp [List.find?] at h
  | cons x xs ih =>
    by_cases hp : p x
    · rw [List.find?_cons_of_pos _ hp] at h
      obtain rfl : x = a := by injection h
      exact ⟨hp, [], xs, rfl, by simp⟩
    · rw [List.find?_cons_of_neg _ hp] at h
      obtain ⟨hpa, l₁, l₂, rfl, hall⟩ := ih h
      refine ⟨hpa, x :: l₁, l₂, rfl, ?_⟩
      intro b hb
      rcases List.mem_cons.mp hb with rfl | hb
      · exact Bool.not_eq_true _ ▸ by simpa using hp
      · exact hall b hb

/-- C10: `get_first_function_decl` returns the first `FunctionDef` node
in `ast.walk` traversal order — some prefix of the walk contains no
function definition, then the returned node — and returns `None`
(rather than failing) exactly when the walk contains none. -/
theorem get_first_function_decl_spec (c : Ast) :
    (get_first_function_decl c = none ↔
      ∀ n ∈ walk c, isFunctionDef n = false) ∧
    (∀ d, get_first_function_decl c = some d →
      isFunctionDef d = true ∧
      ∃ l₁ l₂, walk c = l₁ ++ d :: l₂ ∧ ∀ b ∈ l₁, isFunctionDef b = false) := by
  constructor
  · rw [get_first_function_decl, List.find?_eq_none]
    constructor
    · intro h n hn
      have := h n hn
      simpa using this
    · intro h n hn
      simp [h n hn]
  · intro d hd
    exact find?_eq_some_split isFunctionDef (walk c) d hd

/-- Witness for C10 at `cWalk`: the walk passes the module node and the
assignment subtree before reaching the function definition `g`. -/
theorem get_first_function_decl_spec_witness :
    isFunctionDef dWalk = true ∧
    ∃ l₁ l₂, walk cWalk = l₁ ++ dWalk :: l₂ ∧
      ∀ b ∈ l₁, isFunctionDef b = false :=
  (get_first_function_decl_spec cWalk).2 dWalk
    (by simp [get_first_function_decl, walk, walkAux, walkChildren, cWalk,
      dWalk, List.find?, isFunctionDef])

end Semhash

namespace SpecModel

theorem termConsts_rename (f : Nat → Nat) (t : Term) :
    termConsts (renameTerm f t) = (termConsts t).map f := by
  induction t with
  | const i => rfl
  | intLit n => rfl
  | add a b iha ihb => simp [renameTerm, termConsts, iha, ihb]

theorem formulaConsts_rename (f : Nat → Nat) (φ : Formula) :
    formulaConsts (renameFormula f φ) = (formulaConsts φ).map f := by
  cases φ with
  | eq a b => simp [renameFormula, formulaConsts, termConsts_rename]

theorem renameTerm_comp (f g : Nat → Nat) (t : Term) :
    renameTerm f (renameTerm g t) = renameTerm (fun i => f (g i)) t := by
  induction t with
  | const i => rfl
  | intLit n => rfl
  | add a b iha ihb => simp [renameTerm, iha, ihb]

theorem renameFormula_comp (f g : Nat → Nat) (φ : Formula) :
    renameFormula f (renameFormula g φ) = renameFormula (fun i => f (g i)) φ := by
  cases φ with
  | eq a b => simp [renameFormula, renameTerm_comp]

theorem insertFA_map (f : Nat → Nat) (hf : Function.Injective f)
    (l : List Nat) (x : Nat) :
    insertFA (l.map f) (f x) = (insertFA l x).map f := by
  by_cases h : x ∈ l
  · simp [insertFA, h, List.mem_map_of_injective hf]
  · simp [insertFA, h, List.mem_map_of_injective hf]

theorem foldl_insertFA_map (f : Nat → Nat) (hf : Function.Injective f)
    (xs : List Nat) :
    ∀ acc : List Nat,
      (xs.map f).foldl insertFA (acc.map f) = (xs.foldl insertFA acc).map f := by
  induction xs with
  | nil => intro acc; rfl
  | cons x rest ih =>
    intro acc
    simp only [List.map_cons, List.foldl_cons]
    rw [insertFA_map f hf, ih]

theorem idxOfN_map (f : Nat → Nat) (hf : Function.Injective f)
    (x : Nat) (l : List Nat) :
    idxOfN (f x) (l.map f) = idxOfN x l := by
  induction l with
  | nil => rfl
  | cons y rest ih =>
    by_cases h : y = x
    · subst h; simp [idxOfN]
    · have hne : f y ≠ f x := fun hc => h (hf hc)
      simp [idxOfN, h, hne, ih]

theorem firstAppear_rename (f : Nat → Nat) (hf : Function.Injective f)
    (e : Encoding) :
    firstAppear (renameEncoding f e) = (firstAppear e).map f := by
  have h1 : (renameEncoding f e).constraints.map formulaConsts =
      (e.constraints.map formulaConsts).map (List.map f) := by
    simp [renameEncoding, List.map_map]
    exact fun φ _ => formulaConsts_rename f φ
  rw [firstAppear, firstAppear, h1, ← List.map_flatten]
  have := foldl_insertFA_map f hf ((e.constraints.map formulaConsts).flatten) []
  simpa using this

theorem canonicalize_rename (f : Nat → Nat) (hf : Function.Injective f)
    (e : Encoding) :
    canonicalize (renameEncoding f e) = canonicalize e := by
  rw [canonicalize, canonicalize]
  have hc : (renameEncoding f e).constraints =
      e.constraints.map (renameFormula f) := rfl
  rw [firstAppear_rename f hf, hc, List.map_map]
  refine List.map_congr_left (fun φ _ => ?_)
  simp only [Function.comp]
  rw [renameFormula_comp]
  congr 1
  funext i
  exact idxOfN_map f hf i (firstAppear e)

/-- C1 (amended): the Fingerprint Builder's canonicalization removes
exactly naming/allocation-order differences — an encoding and any
injective renaming of its symbolic constants (what an independent
rebuild of the same structure produces) receive identical digests. -/
theorem fingerprint_invariant_under_renaming (e : Encoding)
    (f : Nat → Nat) (hf : Function.Injective f) :
    fingerprint (renameEncoding f e) = fingerprint e := by
  rw [fingerprint, fingerprint, serialize, serialize,
    canonicalize_rename f hf]
  rfl

/-- Witness for C1's amended theorem: shifting every constant of
`specEncA` by 5 leaves the fingerprint unchanged. -/
theorem fingerprint_invariant_under_renaming_witness :
    fingerprint (renameEncoding (fun n => n + 5) specEncA) =
      fingerprint specEncA :=
  fingerprint_invariant_under_renaming specEncA (fun n => n + 5)
    (fun _ _ hab => by simpa using hab)

/-- C1 counterexample: the spec's own end-to-end example-1 pair.
`encodeSpec` (the section-4.2 encoder) encodes `return x + 2` into
`specEncA` and `y = 2; return x + y` into `specEncB`; the Equivalence
Oracle proves the two encodings Equivalent, yet their fingerprints
differ — canonicalization renumbers constants but cannot merge the
structurally different constraint sets, so the claimed invariant fails. -/
theorem oracle_equivalent_fingerprints_differ :
    encodeSpec fSpec1 = .ok specEncA ∧
    encodeSpec fSpec2 = .ok specEncB ∧
    OracleEquivalent specEncA specEncB ∧
    fingerprint specEncA ≠ fingerprint specEncB := by
  refine ⟨rfl, rfl, ⟨⟨rfl, rfl⟩, ?_⟩, by decide⟩
  intro va vb ha hb hp
  have h1 : holdsF va (.eq (.const 1) (.add (.const 0) (.intLit 2))) :=
    ha _ (by simp [specEncA])
  have h2 : holdsF vb (.eq (.const 2) (.intLit 2)) :=
    hb _ (by simp [specEncB])
  have h3 : holdsF vb (.eq (.const 1) (.add (.const 0) (.const 2))) :=
    hb _ (by simp [specEncB])
  have h4 : va 0 = vb 0 := hp (0, 0) (by simp [specEncA, specEncB])
  simp only [holdsF, evalTerm] at h1 h2 h3
  show va specEncA.retConst = vb specEncB.retConst
  simp only [specEncA, specEncB]
  omega

end SpecModel
